import Mathlib

/-!
Verification development for the MuGo policy network (`policy.py`).

The development shallowly embeds `policy.py`:

* a *shape-level* model of `PolicyNetwork.set_up_network` recording every
  graph variable it creates (name, tensor shape, initializer) and the one
  construction step that can fail (`h_conv_intermediate[-1]`);
* a *numeric* model of the forward graph over exact rationals:
  SAME-padded convolutions, rectifier, per-cell bias and softmax, where the
  floating-point exponential is an abstract parameter `e` (assumed positive
  where a theorem needs it) so that all definitions stay executable;
* the cross-entropy loss of line 83, with the logarithm abstracted so that
  theorems can speak about *which* values the loss feeds to the logarithm;
* a state model of the mini-batch trainer / evaluator (`train`,
  `check_accuracy`) over an abstract parameter vector, faithful to the
  batching, step counting, aggregation, division and summary-tagging
  structure of the Python code;
* a checkpoint model (`save_variables` / `initialize_variables`) that
  serialises every tensor to nested lists and restores by full replacement.
-/

set_option maxRecDepth 4000

namespace MuGo

/-! ### Shape-level model of `PolicyNetwork.set_up_network` (policy.py 44-104)

Each TensorFlow variable created by `set_up_network` is recorded with its
name, its shape and its initializer.  The role of a variable (weight /
bias / step counter) is recorded explicitly: weights are exactly the
variables produced by `_weight_variable`.  -/

/-- Role of a graph variable: `W_*` convolution weights, the `b_conv_final`
bias, or the non-trainable `global_step` counter. -/
inductive VarKind where
  | weight
  | bias
  | counter
deriving DecidableEq

/-- Initializer of a graph variable.
`truncatedNormal mean fanIn` stands for
`tf.truncated_normal(shape, mean, stddev)` where the standard-deviation
argument is `1 / Real.sqrt fanIn` (line 59: `stddev = 1 / math.sqrt(number_inputs_added)`,
recorded here by its radicand `fanIn` since the value itself is irrational).
`const v` stands for `tf.constant(v, shape)` / `tf.Variable(v)`. -/
inductive VarInit where
  | truncatedNormal (mean : ℚ) (fanIn : ℕ)
  | const (v : ℚ)
deriving DecidableEq

/-- One variable of the TensorFlow graph built by `set_up_network`. -/
structure GraphVariable where
  name : String
  shape : List ℕ
  kind : VarKind
  init : VarInit
deriving DecidableEq

/-- Embeds `_product` (policy.py 52-53): `functools.reduce(operator.mul, numbers)`.
`reduce` raises on an empty list; every call site passes a non-empty shape,
so the value returned on `[]` is never relied upon. -/
def _product (numbers : List ℕ) : ℕ :=
  match numbers with
  | [] => 1
  | h :: t => t.foldl (· * ·) h

/-- Embeds `_weight_variable` (policy.py 55-60): a variable drawn from
`tf.truncated_normal(shape, stddev = 1/sqrt(product(shape[:-1])))` — zero
mean, and the fan-in is the product of every dimension of the weight shape
except the last (output-channel) one. -/
def _weight_variable (shape : List ℕ) (name : String) : GraphVariable :=
  ⟨name, shape, VarKind.weight, VarInit.truncatedNormal 0 (_product shape.dropLast)⟩

/-- The variables created by `set_up_network` for a configuration
`(num_input_planes, k, num_int_conv_layers)` on an `N × N` board, in
creation order (policy.py 46, 66, 73-74, 78, 79):
`global_step`, `W_conv_init`, the `num_int_conv_layers` intermediate
weights, `W_conv_final` and the per-cell bias `b_conv_final`. -/
def network_variables (num_input_planes k num_int_conv_layers N : ℕ) : List GraphVariable :=
  ⟨"global_step", [], VarKind.counter, VarInit.const 0⟩ ::
  _weight_variable [5, 5, num_input_planes, k] "W_conv_init" ::
  ((List.range num_int_conv_layers).map
    (fun i => _weight_variable [3, 3, k, k] ("W_conv_inter" ++ toString i)) ++
  [_weight_variable [1, 1, k, 1] "W_conv_final",
   ⟨"b_conv_final", [N ^ 2], VarKind.bias, VarInit.const 0⟩])

/-- Failure mode of graph construction: `h_conv_intermediate[-1]`
(policy.py 80) raises `IndexError` when the list of intermediate layers is
empty, i.e. when `num_int_conv_layers = 0`. -/
inductive BuildError where
  | intermediateIndexError
deriving DecidableEq

/-- The successfully built graph: its list of variables. -/
structure BuiltGraph where
  graphVars : List GraphVariable
deriving DecidableEq

/-- Embeds the construction-time control flow of `set_up_network`
(policy.py 44-104).  All variables (lines 46-79) are created first; line 80
then reads `h_conv_intermediate[-1]`, which fails with `IndexError` when
`num_int_conv_layers = 0` (the list built by the loop of lines 73-76 has one
entry per intermediate layer). -/
def set_up_network (num_input_planes k num_int_conv_layers N : ℕ) :
    Except BuildError BuiltGraph :=
  let h_conv_intermediate := List.range num_int_conv_layers
  match h_conv_intermediate.getLast? with
  | none => Except.error BuildError.intermediateIndexError
  | some _ => Except.ok ⟨network_variables num_input_planes k num_int_conv_layers N⟩

/-! ### Numeric model of the forward graph (policy.py 62-81)

Feature stacks and hidden layers are `N × N × C` rational images.  The
exponential used by the softmax is an abstract parameter so every
definition remains executable. -/

/-- An `N × N` image with `C` channels, as in the `[None, go.N, go.N, planes]`
placeholders (one batch element). -/
abbrev Image (N C : ℕ) := Fin N → Fin N → Fin C → ℚ

/-- The rectifier `tf.nn.relu` applied to one scalar. -/
def relu (q : ℚ) : ℚ := max q 0

/-- `relu` applied pointwise to an image. -/
def reluImage {N C : ℕ} (x : Image N C) : Image N C :=
  fun i j c => relu (x i j c)

/-- Amount of zero padding added on the top/left by SAME padding for an
odd `K × K` kernel with stride 1: `(K - 1) / 2`. -/
def samePad (K : ℕ) : ℤ := ((K : ℤ) - 1) / 2

/-- Reads pixel `(i, j)` of the zero-padded extension of `x`:
the pixel of `x` when `(i, j)` is in range, and `0` otherwise. -/
def paddedPixel {N C : ℕ} (x : Image N C) (i j : ℤ) (c : Fin C) : ℚ :=
  if h : 0 ≤ i ∧ i < (N : ℤ) ∧ 0 ≤ j ∧ j < (N : ℤ) then
    x ⟨i.toNat, by omega⟩ ⟨j.toNat, by omega⟩ c
  else 0

/-- Embeds `_conv2d` (policy.py 62-63): `tf.nn.conv2d` with stride 1 and
`padding="SAME"`, which zero pads so the spatial dimensions are preserved.
`W` is a `K × K × Cin × Cout` kernel. -/
def _conv2d {N Cin Cout K : ℕ} (x : Image N Cin)
    (W : Fin K → Fin K → Fin Cin → Fin Cout → ℚ) : Image N Cout :=
  fun i j o =>
    ∑ di : Fin K, ∑ dj : Fin K, ∑ c : Fin Cin,
      paddedPixel x ((i : ℤ) + (di : ℤ) - samePad K) ((j : ℤ) + (dj : ℤ) - samePad K) c
        * W di dj c o

/-- The learnable tensors of the policy network, with the shapes of
policy.py 66, 74, 78, 79. -/
structure Params (N planes k layers : ℕ) where
  W_conv_init : Fin 5 → Fin 5 → Fin planes → Fin k → ℚ
  W_conv_inter : Fin layers → Fin 3 → Fin 3 → Fin k → Fin k → ℚ
  W_conv_final : Fin 1 → Fin 1 → Fin k → Fin 1 → ℚ
  b_conv_final : Fin (N ^ 2) → ℚ

/-- Embeds `h_conv_init` (policy.py 67): the rectified 5×5 initial
convolution layer. -/
def h_conv_init {N planes k layers : ℕ} (p : Params N planes k layers)
    (x : Image N planes) : Image N k :=
  reluImage (_conv2d x p.W_conv_init)

/-- The last intermediate activation, `h_conv_intermediate[-1]` after the
loop of policy.py 73-76: each of the `layers` rectified 3×3 convolutions
applied in order to the previous hidden layer.  (Construction requires at
least one intermediate layer — see `set_up_network`; for `layers = 0`
Python raises before any forward pass exists.) -/
def h_conv_inter_last {N planes k layers : ℕ} (p : Params N planes k layers)
    (x : Image N planes) : Image N k :=
  (List.finRange layers).foldl
    (fun h i => reluImage (_conv2d h (p.W_conv_inter i)))
    (h_conv_init p x)

/-- Embeds `h_conv_final` (policy.py 80): the 1×1 final convolution (one
output channel, no rectifier). -/
def h_conv_final {N planes k layers : ℕ} (p : Params N planes k layers)
    (x : Image N planes) : Image N 1 :=
  _conv2d (h_conv_inter_last p x) p.W_conv_final

/-- Row index of flattened cell `idx` under the row-major
`tf.reshape(·, [-1, go.N ** 2])` of policy.py 81. -/
def rowOf {N : ℕ} (idx : Fin (N ^ 2)) : Fin N :=
  ⟨(idx : ℕ) / N, by
    have h := idx.isLt
    have hN : 0 < N := by
      rcases Nat.eq_zero_or_pos N with h0 | h0
      · subst h0; simp at h
      · exact h0
    have h' : (idx : ℕ) < N * N := by
      have : N ^ 2 = N * N := by ring
      omega
    exact (Nat.div_lt_iff_lt_mul hN).mpr h'⟩

/-- Column index of flattened cell `idx` (see `rowOf`). -/
def colOf {N : ℕ} (idx : Fin (N ^ 2)) : Fin N :=
  ⟨(idx : ℕ) % N, by
    have h := idx.isLt
    have hN : 0 < N := by
      rcases Nat.eq_zero_or_pos N with h0 | h0
      · subst h0; simp at h
      · exact h0
    exact Nat.mod_lt _ hN⟩

/-- The vector fed to the softmax in policy.py 81:
`tf.reshape(h_conv_final, [-1, go.N ** 2]) + b_conv_final` — the flattened
final convolution plus the independent learned per-cell bias. -/
def logits {N planes k layers : ℕ} (p : Params N planes k layers)
    (x : Image N planes) : Fin (N ^ 2) → ℚ :=
  fun idx => h_conv_final p x (rowOf idx) (colOf idx) 0 + p.b_conv_final idx

/-- `tf.nn.softmax` over one vector, with the exponential abstracted as `e`:
each entry is `e zi` divided by the sum of `e` over the whole vector. -/
def softmax (e : ℚ → ℚ) (z : List ℚ) : List ℚ :=
  z.map (fun zi => e zi / (z.map e).sum)

/-- Embeds `output` (policy.py 81) for one input: the softmax of the
`N ^ 2` logits. -/
def output {N planes k layers : ℕ} (e : ℚ → ℚ) (p : Params N planes k layers)
    (x : Image N planes) : List ℚ :=
  softmax e (List.ofFn (logits p x))

/-! ### The loss (policy.py 83)

`log_likelihood_cost = -tf.reduce_mean(tf.reduce_sum(tf.mul(tf.log(output), y),
reduction_indices=[1]))`.  The logarithm is an abstract parameter, so a
theorem can observe which values the loss feeds to it: the code passes the
`output` tensor to `tf.log` *unchanged* — there is no clamping step. -/

/-- `tf.reduce_mean` over a vector: sum divided by length. -/
def reduce_mean (l : List ℚ) : ℚ := l.sum / l.length

/-- Embeds `log_likelihood_cost` (policy.py 83) on a batch:
for each example, the sum over move slots of `log (output slot) * y slot`;
the negative mean of these per-example sums.  The value handed to `log` is
the predicted probability itself. -/
def log_likelihood_cost (log : ℚ → ℚ) (outputBatch yBatch : List (List ℚ)) : ℚ :=
  -(reduce_mean ((outputBatch.zip yBatch).map
      (fun oy => ((oy.1.zip oy.2).map (fun py => log py.1 * py.2)).sum)))

/-! ### Inference facade (policy.py 169-174)

`run(position)` extracts features externally, runs one forward pass and
returns the `(probability, move)` pairs sorted descending.  The coordinate
codec `utils.unflatten_coords` is an external collaborator and stays
abstract. -/

/-- Embeds `PolicyNetwork.run` (policy.py 169-174) for one position whose
extracted feature stack is `x`: pair each probability with its decoded
move and sort descending (Python's `sorted(move_probs, reverse=True)`
orders primarily by probability, largest first). -/
def run {N planes k layers : ℕ} {μ : Type} (e : ℚ → ℚ) (unflatten_coords : ℕ → μ)
    (p : Params N planes k layers) (x : Image N planes) : List (ℚ × μ) :=
  let probabilities := output e p x
  let move_probs := probabilities.enum.map (fun ip => (ip.2, unflatten_coords ip.1))
  List.mergeSort move_probs (fun a b => decide (b.1 ≤ a.1))

/-! ### Mini-batch trainer and evaluator (policy.py 144-166, 176-197)

The loop structure, batching, step counting, aggregation, the final
division and the summary tagging are embedded faithfully; the numeric
payload of one `session.run` — the Adam parameter update and the
accuracy/cost of a batch — is abstracted into collaborator functions over
an abstract parameter vector `P`, since no claim depends on those values. -/

/-- Training state: the parameter vector and the `global_step` variable
(policy.py 46). -/
structure NetState (P : Type) where
  params : P
  global_step : ℕ
deriving DecidableEq

/-- The kinds of summary protobufs the network writes (policy.py 89-98,
108-112). -/
inductive SummaryKind where
  | activations
  | accuracyCost
  | weights
deriving DecidableEq

/-- A run-time failure of `train` / `check_accuracy`: the Python
`ZeroDivisionError` of `aggregate / num_minibatches` when
`num_minibatches = 0` (policy.py 155-156, 189-190). -/
inductive RunError where
  | zeroDivision
deriving DecidableEq

/-- External collaborators and engine callbacks:
`adamUpdate` is the parameter change done by one `AdamOptimizer` step
(policy.py 85, modelled from the spec's update-rule contract);
`accuracyFn` / `costFn` are the values the accuracy and cost nodes return
on one batch; `freshParams` is the random draw used by
`tf.initialize_all_variables`; the two writer flags say whether a training
and test `SummaryWriter` is attached (policy.py 118-120). -/
structure Collab (P Ex : Type) where
  adamUpdate : P → List Ex → P
  accuracyFn : P → List Ex → ℚ
  costFn : P → List Ex → ℚ
  freshParams : P
  training_writer : Bool
  test_writer : Bool

/-- Modelled from the spec: `Dataset.get_batch` (the dataset collaborator
is not under `src/`): pull the next `n` examples of the dataset — the
spec's "pull next batch_size examples" — returning the batch and the rest. -/
def get_batch {Ex : Type} (n : ℕ) (data : List Ex) : List Ex × List Ex :=
  (data.take n, data.drop n)

/-- The batches obtained by calling `get_batch B` `count` times in a row,
together with the examples never pulled. -/
def pull_batches {Ex : Type} (count B : ℕ) (data : List Ex) :
    List (List Ex) × List Ex :=
  match count with
  | 0 => ([], data)
  | n + 1 =>
    let br := get_batch B data
    let rest := pull_batches n B br.2
    (br.1 :: rest.1, rest.2)

/-- Embeds `num_minibatches = data_size // batch_size`
(policy.py 145 and 177, the same floor division in both). -/
def num_minibatches (data_size batch_size : ℕ) : ℕ := data_size / batch_size

/-- The batches processed by `train` (policy.py 145, 147-148). -/
def train_batches {Ex : Type} (data : List Ex) (B : ℕ) : List (List Ex) :=
  (pull_batches (num_minibatches data.length B) B data).1

/-- The batches processed by `check_accuracy` (policy.py 177, 181-182) —
textually the same floor-division batching as `train_batches`. -/
def check_accuracy_batches {Ex : Type} (data : List Ex) (B : ℕ) : List (List Ex) :=
  (pull_batches (num_minibatches data.length B) B data).1

/-- One training step (policy.py 85, 149-151): apply the Adam update to
the parameters and increment `global_step` by exactly 1 — the contract of
`AdamOptimizer(...).minimize(cost, global_step=global_step)`. -/
def train_step {P Ex : Type} (c : Collab P Ex) (s : NetState P) (batch : List Ex) :
    NetState P :=
  ⟨c.adamUpdate s.params batch, s.global_step + 1⟩

/-- One iteration of the training loop (policy.py 147-153): run
`train_step`, and add the batch's accuracy and cost (computed from the
parameters current when the batch is fed) to the running aggregates. -/
def train_loop_step {P Ex : Type} (c : Collab P Ex)
    (acc : NetState P × ℚ × ℚ) (batch : List Ex) : NetState P × ℚ × ℚ :=
  (train_step c acc.1 batch,
   acc.2.1 + c.accuracyFn acc.1.params batch,
   acc.2.2 + c.costFn acc.1.params batch)

/-- Embeds `PolicyNetwork.train` (policy.py 144-166).  Returns the state
after the pass, the summary events written (each tagged with the
`global_step` value read after the loop, line 157) and either the
averaged accuracy/cost or the `ZeroDivisionError` of line 155-156 when
`num_minibatches = 0` (in which case the loop body never ran and the
state is untouched). -/
def train {P Ex : Type} (c : Collab P Ex) (st : NetState P) (data : List Ex)
    (B : ℕ) : NetState P × List (ℕ × SummaryKind) × Except RunError (ℚ × ℚ) :=
  let nb := num_minibatches data.length B
  let r := (train_batches data B).foldl (train_loop_step c) (st, 0, 0)
  if nb = 0 then (r.1, [], Except.error RunError.zeroDivision)
  else
    let avg_accuracy := r.2.1 / (nb : ℚ)
    let avg_cost := r.2.2 / (nb : ℚ)
    let gs := r.1.global_step
    let events := if c.training_writer then
      [(gs, SummaryKind.activations), (gs, SummaryKind.accuracyCost)] else []
    (r.1, events, Except.ok (avg_accuracy, avg_cost))

/-- One iteration of the evaluation loop (policy.py 181-187): the fetches
are only the (pure) accuracy and cost nodes — no `train_step` — so the
state component is passed through unchanged. -/
def check_loop_step {P Ex : Type} (c : Collab P Ex)
    (acc : NetState P × ℚ × ℚ) (batch : List Ex) : NetState P × ℚ × ℚ :=
  (acc.1,
   acc.2.1 + c.accuracyFn acc.1.params batch,
   acc.2.2 + c.costFn acc.1.params batch)

/-- Embeds `PolicyNetwork.check_accuracy` (policy.py 176-197): the same
floor-division batching as `train`, forward-only fetches, the
`ZeroDivisionError` of line 189-190 when `num_minibatches = 0`, and —
when a test writer is attached — the weight and accuracy summaries, both
tagged with the current `global_step` (read, not advanced; line 192). -/
def check_accuracy {P Ex : Type} (c : Collab P Ex) (st : NetState P)
    (data : List Ex) (B : ℕ) :
    NetState P × List (ℕ × SummaryKind) × Except RunError (ℚ × ℚ) :=
  let nb := num_minibatches data.length B
  let r := (check_accuracy_batches data B).foldl (check_loop_step c) (st, 0, 0)
  if nb = 0 then (r.1, [], Except.error RunError.zeroDivision)
  else
    let avg_accuracy := r.2.1 / (nb : ℚ)
    let avg_cost := r.2.2 / (nb : ℚ)
    let gs := r.1.global_step
    let events := if c.test_writer then
      [(gs, SummaryKind.weights), (gs, SummaryKind.accuracyCost)] else []
    (r.1, events, Except.ok (avg_accuracy, avg_cost))

/-- The public operations of a `PolicyNetwork` instance, for statements
about sequences of calls.  `init_variables` is `initialize_variables`
(policy.py 132-136): with no save file it re-initialises every variable —
`global_step` becomes its initial value 0 (line 46) — and with one it
fully replaces the state with the checkpointed parameters and step. -/
inductive Op (P Ex : Type) where
  | train (data : List Ex) (B : ℕ)
  | check_accuracy (data : List Ex) (B : ℕ)
  | run
  | save_variables
  | init_variables (save_file : Option (P × ℕ))

/-- Whether an operation is an `initialize_variables` call. -/
def Op.isInitVariables {P Ex : Type} : Op P Ex → Bool
  | Op.init_variables _ => true
  | _ => false

/-- Effect of one operation on the network state.  `run` (a forward pass)
and `save_variables` (a read-only snapshot) do not change the state. -/
def exec {P Ex : Type} (c : Collab P Ex) (st : NetState P) : Op P Ex → NetState P
  | Op.train data B => (train c st data B).1
  | Op.check_accuracy data B => (check_accuracy c st data B).1
  | Op.run => st
  | Op.save_variables => st
  | Op.init_variables none => ⟨c.freshParams, 0⟩
  | Op.init_variables (some pg) => ⟨pg.1, pg.2⟩

/-- Effect of a sequence of operations, first to last. -/
def execSeq {P Ex : Type} (c : Collab P Ex) (st : NetState P)
    (ops : List (Op P Ex)) : NetState P :=
  ops.foldl (exec c) st

/-! ### Checkpoint I/O (policy.py 99, 132-142)

Modelled from the spec: `tf.train.Saver` (an external collaborator) is a
durable *full snapshot* of every variable — all weight tensors, the bias
and `global_step` — and `saver.restore` is a *full replace*, not a merge.
A checkpoint is flat data, so every tensor is serialised to nested lists
of rationals and restored by indexing. -/

/-- The serialised form of a 4-dimensional weight tensor. -/
def tensor4ToList {a b c d : ℕ} (f : Fin a → Fin b → Fin c → Fin d → ℚ) :
    List (List (List (List ℚ))) :=
  List.ofFn fun i => List.ofFn fun j => List.ofFn fun x => List.ofFn fun y => f i j x y

/-- Reads a 4-dimensional tensor back out of its serialised form. -/
def listToTensor4 {a b c d : ℕ} (l : List (List (List (List ℚ)))) :
    Fin a → Fin b → Fin c → Fin d → ℚ :=
  fun i j x y => ((((l.getD i []).getD j []).getD x []).getD y 0)

/-- The serialised form of the stack of intermediate-layer weight tensors. -/
def tensor5ToList {a b c d e : ℕ}
    (f : Fin a → Fin b → Fin c → Fin d → Fin e → ℚ) :
    List (List (List (List (List ℚ)))) :=
  List.ofFn fun i => tensor4ToList (f i)

/-- Reads the intermediate-layer weight stack back out of its serialised
form. -/
def listToTensor5 {a b c d e : ℕ} (l : List (List (List (List (List ℚ)))))
    : Fin a → Fin b → Fin c → Fin d → Fin e → ℚ :=
  fun i => listToTensor4 (l.getD i [])

/-- A saved checkpoint: the serialised value of every variable of the
graph — the three weight groups, the per-cell bias and `global_step`
(which persists through the checkpoint, policy.py 45-46). -/
structure Checkpoint where
  w_conv_init : List (List (List (List ℚ)))
  w_conv_inter : List (List (List (List (List ℚ))))
  w_conv_final : List (List (List (List ℚ)))
  b_conv_final : List ℚ
  global_step : ℕ

/-- Embeds `PolicyNetwork.save_variables` (policy.py 141-142):
`saver.save` writes a full snapshot of every variable. -/
def save_variables {N planes k layers : ℕ}
    (st : NetState (Params N planes k layers)) : Checkpoint :=
  ⟨tensor4ToList st.params.W_conv_init,
   tensor5ToList st.params.W_conv_inter,
   tensor4ToList st.params.W_conv_final,
   List.ofFn st.params.b_conv_final,
   st.global_step⟩

/-- Embeds `PolicyNetwork.initialize_variables` (policy.py 132-136): with
no save file, every variable is freshly initialised (`freshDraw` is the
random draw, `global_step` returns to its initial value 0); with a save
file, `saver.restore` fully replaces every variable with the checkpointed
value. -/
def init_variables {N planes k layers : ℕ} (freshDraw : Params N planes k layers) :
    Option Checkpoint → NetState (Params N planes k layers)
  | none => ⟨freshDraw, 0⟩
  | some ckpt =>
    ⟨⟨listToTensor4 ckpt.w_conv_init,
      listToTensor5 ckpt.w_conv_inter,
      listToTensor4 ckpt.w_conv_final,
      fun i => ckpt.b_conv_final.getD i 0⟩,
     ckpt.global_step⟩

/-! ### Helper lemmas -/

/-- Indexing a function-built list inside its length returns the function
value, whatever the default. -/
theorem getD_ofFn {α : Type} {n : ℕ} (f : Fin n → α) (i : Fin n) (d : α) :
    (List.ofFn f).getD (i : ℕ) d = f i := by
  have h : (i : ℕ) < (List.ofFn f).length := by
    simp
  rw [List.getD_eq_getElem?_getD, List.getElem?_eq_getElem h]
  simp

/-- Serialising a 4-dimensional tensor and reading it back is the
identity. -/
theorem listToTensor4_tensor4ToList {a b c d : ℕ}
    (f : Fin a → Fin b → Fin c → Fin d → ℚ) :
    listToTensor4 (tensor4ToList f) = f := by
  funext i j x y
  simp [listToTensor4, tensor4ToList, getD_ofFn]

/-- Serialising the intermediate-layer weight stack and reading it back is
the identity. -/
theorem listToTensor5_tensor5ToList {a b c d e : ℕ}
    (f : Fin a → Fin b → Fin c → Fin d → Fin e → ℚ) :
    listToTensor5 (tensor5ToList f) = f := by
  funext i
  simp [listToTensor5, tensor5ToList, getD_ofFn, listToTensor4_tensor4ToList]

/-- Serialising a vector and reading it back is the identity. -/
theorem getD_ofFn_fun {n : ℕ} (f : Fin n → ℚ) :
    (fun i : Fin n => (List.ofFn f).getD (i : ℕ) 0) = f := by
  funext i
  simp [getD_ofFn]

/-- `pull_batches` produces exactly `count` batches. -/
theorem pull_batches_length {Ex : Type} :
    ∀ (count B : ℕ) (data : List Ex), (pull_batches count B data).1.length = count := by
  intro count
  induction count with
  | zero => intro B data; simp [pull_batches]
  | succ n ih => intro B data; simp [pull_batches, get_batch, ih]

/-- The examples left over by `pull_batches` are exactly the tail after
the first `count * B`. -/
theorem pull_batches_rest {Ex : Type} :
    ∀ (count B : ℕ) (data : List Ex),
      (pull_batches count B data).2 = data.drop (count * B) := by
  intro count
  induction count with
  | zero => intro B data; simp [pull_batches]
  | succ n ih =>
    intro B data
    simp only [pull_batches, get_batch, ih, List.drop_drop]
    congr 1
    ring

/-- The examples pulled by `pull_batches`, in order, are exactly the first
`count * B` of the dataset. -/
theorem pull_batches_flatten {Ex : Type} :
    ∀ (count B : ℕ) (data : List Ex),
      (pull_batches count B data).1.flatten = data.take (count * B) := by
  intro count
  induction count with
  | zero => intro B data; simp [pull_batches]
  | succ n ih =>
    intro B data
    simp only [pull_batches, get_batch, List.flatten_cons, ih]
    rw [Nat.succ_mul, Nat.add_comm (n * B) B, List.take_add]

/-- When the dataset holds at least `count * B` examples, every batch
pulled is full. -/
theorem pull_batches_full {Ex : Type} :
    ∀ (count B : ℕ) (data : List Ex), count * B ≤ data.length →
      ∀ batch ∈ (pull_batches count B data).1, batch.length = B := by
  intro count
  induction count with
  | zero => intro B data _ batch h; simp [pull_batches] at h
  | succ n ih =>
    intro B data hlen batch hmem
    have hB : B ≤ data.length := by
      have : B ≤ (n + 1) * B := by
        calc B = 1 * B := (Nat.one_mul B).symm
        _ ≤ (n + 1) * B := Nat.mul_le_mul_right B (by omega)
      omega
    simp only [pull_batches, get_batch, List.mem_cons] at hmem
    rcases hmem with h | h
    · subst h
      simp [List.length_take]
      omega
    · refine ih B (data.drop B) ?_ batch h
      rw [List.length_drop]
      have hsm : (n + 1) * B = n * B + B := by ring
      omega

/-- The training loop advances the state by one `train_step` per batch, so
`global_step` grows by exactly the number of batches folded. -/
theorem train_foldl_global_step {P Ex : Type} (c : Collab P Ex) :
    ∀ (bs : List (List Ex)) (st : NetState P) (a co : ℚ),
      ((bs.foldl (train_loop_step c) (st, a, co)).1).global_step
        = st.global_step + bs.length := by
  intro bs
  induction bs with
  | nil => intro st a co; simp
  | cons b t ih =>
    intro st a co
    simp only [List.foldl_cons, List.length_cons]
    rw [train_loop_step, ih]
    simp [train_step]
    omega

/-- The evaluation loop never touches the state component. -/
theorem check_foldl_state {P Ex : Type} (c : Collab P Ex) :
    ∀ (bs : List (List Ex)) (st : NetState P) (a co : ℚ),
      (bs.foldl (check_loop_step c) (st, a, co)).1 = st := by
  intro bs
  induction bs with
  | nil => intro st a co; rfl
  | cons b t ih =>
    intro st a co
    simp only [List.foldl_cons]
    rw [check_loop_step]
    exact ih st _ _

/-- Whatever the batching outcome, the state returned by `train` is the
state the loop reached (both branches of the final `if` return it). -/
theorem train_fst {P Ex : Type} (c : Collab P Ex) (st : NetState P)
    (data : List Ex) (B : ℕ) :
    (train c st data B).1
      = ((train_batches data B).foldl (train_loop_step c) (st, 0, 0)).1 := by
  simp only [train]
  split <;> rfl

/-- Whatever the batching outcome, the state returned by `check_accuracy`
is the state the loop reached. -/
theorem check_accuracy_fst {P Ex : Type} (c : Collab P Ex) (st : NetState P)
    (data : List Ex) (B : ℕ) :
    (check_accuracy c st data B).1
      = ((check_accuracy_batches data B).foldl (check_loop_step c) (st, 0, 0)).1 := by
  simp only [check_accuracy]
  split <;> rfl

/-- A single operation other than `initialize_variables` never lowers
`global_step`. -/
theorem exec_global_step_mono {P Ex : Type} (c : Collab P Ex) (st : NetState P)
    (op : Op P Ex) (h : op.isInitVariables = false) :
    st.global_step ≤ (exec c st op).global_step := by
  cases op with
  | train data B =>
    show st.global_step ≤ (train c st data B).1.global_step
    rw [train_fst, train_foldl_global_step]
    exact Nat.le_add_right _ _
  | check_accuracy data B =>
    show st.global_step ≤ (check_accuracy c st data B).1.global_step
    rw [check_accuracy_fst, check_foldl_state]
  | run => exact Nat.le_refl _
  | save_variables => exact Nat.le_refl _
  | init_variables o => simp [Op.isInitVariables] at h

/-- Every entry of a softmax vector is strictly positive when the
exponential is (and the vector is non-empty, so the normaliser is a
non-empty sum of positives). -/
theorem softmax_pos (e : ℚ → ℚ) (he : ∀ q, 0 < e q) (z : List ℚ) (hz : z ≠ []) :
    ∀ prob ∈ softmax e z, 0 < prob := by
  intro prob hmem
  have hsum : 0 < (z.map e).sum := by
    refine List.sum_pos _ ?_ ?_
    · intro x hx
      rcases List.mem_map.mp hx with ⟨w, _, rfl⟩
      exact he w
    · simpa using hz
  rcases List.mem_map.mp hmem with ⟨zi, _, rfl⟩
  exact div_pos (he zi) hsum

/-- Dividing every entry of a list by `s` divides its sum by `s`. -/
theorem sum_map_div (l : List ℚ) (s : ℚ) :
    (l.map (fun t => t / s)).sum = l.sum / s := by
  induction l with
  | nil => simp
  | cons h t ih => simp [ih, add_div]

/-- A softmax vector over a non-empty input sums to exactly 1 in exact
arithmetic. -/
theorem softmax_sum (e : ℚ → ℚ) (he : ∀ q, 0 < e q) (z : List ℚ) (hz : z ≠ []) :
    (softmax e z).sum = 1 := by
  have hsum : 0 < (z.map e).sum := by
    refine List.sum_pos _ ?_ ?_
    · intro x hx
      rcases List.mem_map.mp hx with ⟨w, _, rfl⟩
      exact he w
    · simpa using hz
  have : softmax e z = (z.map e).map (fun t => t / (z.map e).sum) := by
    simp [softmax, List.map_map, Function.comp]
  rw [this, sum_map_div, div_self (ne_of_gt hsum)]

/-- The events recorded by one `check_accuracy` pass: none when the pass
fails (or no writer is attached), and otherwise the weight and
accuracy/cost summaries, tagged with the unchanged `global_step`. -/
theorem check_accuracy_events {P Ex : Type} (c : Collab P Ex) (st : NetState P)
    (data : List Ex) (B : ℕ) :
    (check_accuracy c st data B).2.1
      = if num_minibatches data.length B = 0 then []
        else if c.test_writer then
          [(st.global_step, SummaryKind.weights),
           (st.global_step, SummaryKind.accuracyCost)]
        else [] := by
  simp only [check_accuracy, check_foldl_state]
  split
  · rfl
  · rfl

/-! ### Claim theorems -/

/-- Claim C10: constructing a `PolicyNetwork` requires
`num_int_conv_layers ≥ 1`: for `num_int_conv_layers = 0` construction
fails with the `IndexError` of `h_conv_intermediate[-1]` (the
intermediate-layer list is empty) and no usable graph is produced, while
for every `num_int_conv_layers ≥ 1` construction succeeds. -/
theorem set_up_network_needs_intermediate_layer (planes k N : ℕ) :
    set_up_network planes k 0 N = Except.error BuildError.intermediateIndexError ∧
    ∀ layers, 1 ≤ layers → ∃ g, set_up_network planes k layers N = Except.ok g := by
  constructor
  · rfl
  · intro layers hl
    obtain ⟨m, rfl⟩ : ∃ m, layers = m + 1 := ⟨layers - 1, by omega⟩
    refine ⟨⟨network_variables planes k (m + 1) N⟩, ?_⟩
    simp only [set_up_network, List.range_succ, List.getLast?_concat]

/-- Witness for C10 at the concrete configuration
`(planes, k, N) = (1, 1, 1)`: zero intermediate layers fail, one
succeeds. -/
theorem set_up_network_needs_intermediate_layer_witness :
    set_up_network 1 1 0 1 = Except.error BuildError.intermediateIndexError ∧
    ∃ g, set_up_network 1 1 1 1 = Except.ok g :=
  ⟨(set_up_network_needs_intermediate_layer 1 1 1).1,
   (set_up_network_needs_intermediate_layer 1 1 1).2 1 (by decide)⟩

/-- Claim C8: when `dataset.size // batch_size = 0` both `train` and
`check_accuracy` fail at the call site with the `ZeroDivisionError` of
`aggregate / num_minibatches`: the error is the immediate result (nothing
is retried) and the state returned alongside is exactly the input state —
no parameter update and no step increment happened before the failure,
because the loop body never ran. -/
theorem train_check_fail_on_small_dataset {P Ex : Type} (c : Collab P Ex)
    (st : NetState P) (data : List Ex) (B : ℕ)
    (h : num_minibatches data.length B = 0) :
    train c st data B = (st, [], Except.error RunError.zeroDivision) ∧
    check_accuracy c st data B = (st, [], Except.error RunError.zeroDivision) := by
  constructor
  · simp [train, train_batches, h, pull_batches]
  · simp [check_accuracy, check_accuracy_batches, h, pull_batches]

/-- A trivial collaborator bundle over unit parameters, used by concrete
witnesses. -/
def trivialCollab : Collab Unit Unit :=
  ⟨fun p _ => p, fun _ _ => 0, fun _ _ => 0, (), false, false⟩

/-- Witness for C8: an empty dataset with batch size 32 fails both passes
and leaves the state (here with `global_step = 5`) untouched. -/
theorem train_check_fail_on_small_dataset_witness :
    num_minibatches (List.length ([] : List Unit)) 32 = 0 ∧
    train trivialCollab ⟨(), 5⟩ [] 32 = (⟨(), 5⟩, [], Except.error RunError.zeroDivision) ∧
    check_accuracy trivialCollab ⟨(), 5⟩ [] 32
      = (⟨(), 5⟩, [], Except.error RunError.zeroDivision) :=
  ⟨by decide, train_check_fail_on_small_dataset trivialCollab ⟨(), 5⟩ [] 32 (by decide)⟩

/-- Claim C7: `check_accuracy` performs forward-only passes: for every
dataset and batch size the state after the call — every parameter tensor
and `global_step` — is exactly the state before it, and every summary
event it records is tagged with that current, unchanged `global_step`. -/
theorem check_accuracy_forward_only {P Ex : Type} (c : Collab P Ex)
    (st : NetState P) (data : List Ex) (B : ℕ) :
    (check_accuracy c st data B).1 = st ∧
    ∀ ev ∈ (check_accuracy c st data B).2.1, ev.1 = st.global_step := by
  constructor
  · rw [check_accuracy_fst, check_foldl_state]
  · intro ev hev
    rw [check_accuracy_events] at hev
    split at hev
    · simp at hev
    · split at hev
      · rcases List.mem_cons.mp hev with h1 | h1
        · subst h1; rfl
        · rcases List.mem_cons.mp h1 with h2 | h2
          · subst h2; rfl
          · simp at h2
      · simp at hev

/-- Collaborator bundle with a test-time summary writer attached, for the
C7 witness. -/
def testWriterCollab : Collab Unit Unit :=
  ⟨fun p _ => p, fun _ _ => 0, fun _ _ => 0, (), false, true⟩

/-- Witness for C7 at a concrete one-batch evaluation with a test writer
attached: the state (step 7) is preserved and the recorded weight summary
is tagged 7. -/
theorem check_accuracy_forward_only_witness :
    (check_accuracy testWriterCollab ⟨(), 7⟩ [()] 1).1 = ⟨(), 7⟩ ∧
    ((7 : ℕ), SummaryKind.weights).1 = (NetState.mk () 7).global_step :=
  ⟨(check_accuracy_forward_only testWriterCollab ⟨(), 7⟩ [()] 1).1,
   (check_accuracy_forward_only testWriterCollab ⟨(), 7⟩ [()] 1).2
     (7, SummaryKind.weights) (by decide)⟩

/-- Claim C6: every weight tensor of the graph is initialized from a
zero-mean truncated normal whose standard-deviation parameter is
`1/sqrt(fan-in)` where the fan-in is the product of all weight-tensor
dimensions except the last (output-channel) one, and every bias tensor is
initialized to exactly 0 — no bias is randomly initialized. -/
theorem weight_bias_initialization (planes k layers N : ℕ) :
    ∀ v ∈ network_variables planes k layers N,
      (v.kind = VarKind.weight →
        v.init = VarInit.truncatedNormal 0 (_product v.shape.dropLast)) ∧
      (v.kind = VarKind.bias → v.init = VarInit.const 0) := by
  intro v hv
  simp only [network_variables, List.mem_cons, List.mem_append, List.mem_map,
    List.mem_singleton] at hv
  rcases hv with rfl | rfl | ⟨i, _, rfl⟩ | rfl | rfl | h
  · exact ⟨fun h => VarKind.noConfusion h, fun h => VarKind.noConfusion h⟩
  · exact ⟨fun _ => rfl, fun h => VarKind.noConfusion h⟩
  · exact ⟨fun _ => rfl, fun h => VarKind.noConfusion h⟩
  · exact ⟨fun _ => rfl, fun h => VarKind.noConfusion h⟩
  · exact ⟨fun h => VarKind.noConfusion h, fun _ => rfl⟩
  · exact absurd h (List.not_mem_nil v)

/-- Witness for C6: the final 1×1 weight of the `(1, 1, 1, 1)`
configuration is a member and its initializer is the zero-mean truncated
normal with fan-in `product [1, 1, 1]`. -/
theorem weight_bias_initialization_witness :
    _weight_variable [1, 1, 1, 1] "W_conv_final" ∈ network_variables 1 1 1 1 ∧
    (_weight_variable [1, 1, 1, 1] "W_conv_final").init
      = VarInit.truncatedNormal 0
          (_product (_weight_variable [1, 1, 1, 1] "W_conv_final").shape.dropLast) :=
  ⟨by decide, (weight_bias_initialization 1 1 1 1 _ (by decide)).1 (by decide)⟩

/-- Claim C2: for every dataset of size `D` and batch size `B` with
`D // B ≥ 1`, `train` processes exactly `D // B` batches of exactly `B`
examples each — together they are precisely the first `(D // B) * B`
examples, so the `D mod B` remainder examples are never pulled — and
`check_accuracy` performs the very same floor-division batching. -/
theorem train_floor_division_batching {Ex : Type} (data : List Ex) (B : ℕ)
    (_h : 1 ≤ num_minibatches data.length B) :
    (train_batches data B).length = data.length / B ∧
    (∀ batch ∈ train_batches data B, batch.length = B) ∧
    (train_batches data B).flatten = data.take (data.length / B * B) ∧
    (pull_batches (num_minibatches data.length B) B data).2.length
      = data.length % B ∧
    check_accuracy_batches data B = train_batches data B := by
  have hle : data.length / B * B ≤ data.length := Nat.div_mul_le_self _ _
  refine ⟨?_, ?_, ?_, ?_, rfl⟩
  · rw [train_batches, pull_batches_length]; rfl
  · intro batch hb
    exact pull_batches_full _ _ _ hle batch hb
  · rw [train_batches, pull_batches_flatten]; rfl
  · rw [pull_batches_rest, List.length_drop]
    have hdm := Nat.div_add_mod data.length B
    have hnm : num_minibatches data.length B * B = B * (data.length / B) := by
      rw [num_minibatches, Nat.mul_comm]
    omega

/-- Witness for C2: a dataset of 3 examples with batch size 2 yields
`3 // 2 = 1` full batch of 2, and the one remainder example is left
unpulled. -/
theorem train_floor_division_batching_witness :
    1 ≤ num_minibatches ([10, 20, 30] : List ℕ).length 2 ∧
    ((train_batches ([10, 20, 30] : List ℕ) 2).length
        = ([10, 20, 30] : List ℕ).length / 2 ∧
      (∀ batch ∈ train_batches ([10, 20, 30] : List ℕ) 2, batch.length = 2) ∧
      (train_batches ([10, 20, 30] : List ℕ) 2).flatten
        = ([10, 20, 30] : List ℕ).take (([10, 20, 30] : List ℕ).length / 2 * 2) ∧
      (pull_batches (num_minibatches ([10, 20, 30] : List ℕ).length 2) 2
          ([10, 20, 30] : List ℕ)).2.length = ([10, 20, 30] : List ℕ).length % 2 ∧
      check_accuracy_batches ([10, 20, 30] : List ℕ) 2
        = train_batches ([10, 20, 30] : List ℕ) 2) :=
  ⟨by decide, train_floor_division_batching [10, 20, 30] 2 (by decide)⟩

/-- Over any operation sequence that contains no `initialize_variables`
call, `global_step` never decreases. -/
theorem execSeq_global_step_mono {P Ex : Type} (c : Collab P Ex) :
    ∀ (ops : List (Op P Ex)) (st : NetState P),
      (∀ op ∈ ops, op.isInitVariables = false) →
      st.global_step ≤ (execSeq c st ops).global_step := by
  intro ops
  induction ops with
  | nil => intro st _; exact Nat.le_refl _
  | cons op t ih =>
    intro st hops
    have h1 := exec_global_step_mono c st op (hops op (List.mem_cons_self op t))
    have h2 := ih (exec c st op) (fun o ho => hops o (List.mem_cons_of_mem op ho))
    simp only [execSeq, List.foldl_cons]
    exact Nat.le_trans h1 h2

/-- Claim C3 counterexample: `global_step` can decrease under a sequence
of public operations.  From a fresh state, one `train` pass over one batch
leaves `global_step = 1`, and a following `initialize_variables` call with
no save file re-initialises every variable, putting `global_step` back to
its initial value 0 — strictly smaller than before the call. -/
theorem global_step_decreases_after_reinit :
    (execSeq trivialCollab ⟨(), 0⟩ [Op.train [()] 1]).global_step = 1 ∧
    (execSeq trivialCollab ⟨(), 0⟩
        [Op.train [()] 1, Op.init_variables none]).global_step = 0 := by
  constructor
  · rfl
  · rfl

/-- Claim C3 (amended): `global_step` increases by exactly 1 per training
batch processed — a fold over `bs` batches moves it from `s` to
`s + bs.length`, so a full `train` pass adds `num_minibatches` — and by
exactly 0 during any `check_accuracy` pass; it never decreases under any
sequence of `train`, `check_accuracy`, `run` and `save_variables`
operations.  (`initialize_variables` is the exception the counterexample
exhibits: it resets the step.) -/
theorem global_step_counting {P Ex : Type} (c : Collab P Ex) (st : NetState P)
    (data : List Ex) (B : ℕ) (ops : List (Op P Ex))
    (hops : ∀ op ∈ ops, op.isInitVariables = false) :
    (∀ (bs : List (List Ex)) (a co : ℚ),
      ((bs.foldl (train_loop_step c) (st, a, co)).1).global_step
        = st.global_step + bs.length) ∧
    (train c st data B).1.global_step
      = st.global_step + num_minibatches data.length B ∧
    (check_accuracy c st data B).1.global_step = st.global_step ∧
    st.global_step ≤ (execSeq c st ops).global_step := by
  refine ⟨fun bs a co => train_foldl_global_step c bs st a co, ?_, ?_, ?_⟩
  · rw [train_fst, train_foldl_global_step, train_batches, pull_batches_length]
  · rw [check_accuracy_fst, check_foldl_state]
  · exact execSeq_global_step_mono c ops st hops

/-- Witness for the amended C3 at concrete inputs: from step 3, folding
one batch gives step 4, a `train` pass over `3 // 2 = 1` batch gives step
4, a `check_accuracy` pass keeps step 3, and a mutation-free operation
sequence never drops below 3. -/
theorem global_step_counting_witness :
    (([[()]] : List (List Unit)).foldl (train_loop_step trivialCollab)
        (⟨(), 3⟩, 0, 0)).1.global_step
      = (NetState.mk () 3).global_step + ([[()]] : List (List Unit)).length ∧
    (train trivialCollab ⟨(), 3⟩ [(), (), ()] 2).1.global_step
      = (NetState.mk () 3).global_step
          + num_minibatches ([(), (), ()] : List Unit).length 2 ∧
    (check_accuracy trivialCollab ⟨(), 3⟩ [(), (), ()] 2).1.global_step
      = (NetState.mk () 3).global_step ∧
    (NetState.mk () 3).global_step
      ≤ (execSeq trivialCollab ⟨(), 3⟩
          [Op.run, Op.check_accuracy [()] 1, Op.save_variables]).global_step :=
  ⟨(global_step_counting trivialCollab ⟨(), 3⟩ [(), (), ()] 2
      [Op.run, Op.check_accuracy [()] 1, Op.save_variables]
      (by intro op hop; fin_cases hop <;> rfl)).1 [[()]] 0 0,
   (global_step_counting trivialCollab ⟨(), 3⟩ [(), (), ()] 2
      [Op.run, Op.check_accuracy [()] 1, Op.save_variables]
      (by intro op hop; fin_cases hop <;> rfl)).2⟩

/-- A logarithm stand-in that is 0 everywhere. -/
def logProbeA : ℚ → ℚ := fun _ => 0

/-- A logarithm stand-in that differs from `logProbeA` only at the single
argument 0 (see `logProbe_agree_off_zero`). -/
def logProbeB : ℚ → ℚ := fun q => if q = 0 then 1 else 0

/-- `logProbeA` and `logProbeB` agree at every non-zero argument, so any
computation that only ever takes logarithms of values clamped away from
exact 0 returns the same result for both. -/
theorem logProbe_agree_off_zero (q : ℚ) (hq : q ≠ 0) : logProbeA q = logProbeB q := by
  simp [logProbeA, logProbeB, hq]

/-- Claim C1 counterexample: the loss is *not* computed from probabilities
clamped away from exact 0 — line 83 passes the output tensor to the
logarithm unchanged.  On the one-example batch with predicted distribution
`[0, 1]` (slot 0 underflowed to exact 0) and one-hot label `[1, 0]`, the
cost depends on the logarithm's value at 0: two logarithms that agree at
every non-zero argument (`logProbe_agree_off_zero`) give different costs,
so the loss does evaluate the logarithm at exactly 0. -/
theorem cost_log_of_zero_sensitivity :
    logProbeA 0 ≠ logProbeB 0 ∧
    log_likelihood_cost logProbeA [[0, 1]] [[1, 0]]
      ≠ log_likelihood_cost logProbeB [[0, 1]] [[1, 0]] := by
  have hA : log_likelihood_cost logProbeA [[0, 1]] [[1, 0]] = 0 := by
    norm_num [log_likelihood_cost, reduce_mean, logProbeA]
  have hB : log_likelihood_cost logProbeB [[0, 1]] [[1, 0]] = -1 := by
    norm_num [log_likelihood_cost, reduce_mean, logProbeB]
  constructor
  · norm_num [logProbeA, logProbeB]
  · rw [hA, hB]
    norm_num

/-- The logit vector of a non-degenerate board is non-empty. -/
theorem ofFn_logits_ne_nil {N planes k layers : ℕ} (hN : 0 < N)
    (p : Params N planes k layers) (x : Image N planes) :
    List.ofFn (logits p x) ≠ [] := by
  intro hcon
  have hlen := List.length_ofFn (logits p x)
  rw [hcon] at hlen
  simp only [List.length_nil] at hlen
  have hpos := pow_pos hN 2
  omega

/-- Claim C1 (amended): no clamping is applied — `log_likelihood_cost`
hands each predicted probability to the logarithm unchanged (see the
counterexample) — but in exact arithmetic every probability of the
network's softmax `output` is strictly positive, so the logarithm is never
evaluated at 0 on true softmax outputs; only a probability that has
underflowed to exact 0 reaches the unguarded logarithm. -/
theorem output_probabilities_positive {N planes k layers : ℕ} (e : ℚ → ℚ)
    (he : ∀ q, 0 < e q) (hN : 0 < N) (p : Params N planes k layers)
    (x : Image N planes) :
    ∀ prob ∈ output e p x, 0 < prob := by
  rw [output]
  exact softmax_pos e he _ (ofFn_logits_ne_nil hN p x)

/-- The all-zero parameter set of the smallest configuration, for concrete
witnesses. -/
def zeroParams : Params 1 1 1 1 :=
  ⟨fun _ _ _ _ => 0, fun _ _ _ _ _ => 0, fun _ _ _ _ => 0, fun _ => 0⟩

/-- The all-zero one-plane 1×1 feature stack, for concrete witnesses. -/
def zeroImage : Image 1 1 := fun _ _ _ => 0

/-- The constant-one stand-in for the exponential, for concrete
witnesses. -/
def oneExp : ℚ → ℚ := fun _ => 1

/-- On the smallest configuration with the constant-one exponential, the
output distribution is the single probability 1 (whatever the logit
value, the softmax normalises it away). -/
theorem output_oneExp_eq : output oneExp zeroParams zeroImage = [1] := by
  rw [output]
  have h1 : List.ofFn (logits zeroParams zeroImage)
      = [logits zeroParams zeroImage 0] := by
    simp [List.ofFn_succ]
  rw [h1]
  norm_num [softmax, oneExp]

/-- Witness for the amended C1: on the smallest configuration the single
output probability is 1, and the theorem instantiates to its
positivity. -/
theorem output_probabilities_positive_witness :
    (1 : ℚ) ∈ output oneExp zeroParams zeroImage ∧ (0 : ℚ) < 1 :=
  ⟨by simp [output_oneExp_eq],
   output_probabilities_positive oneExp (fun _ => one_pos) Nat.one_pos
     zeroParams zeroImage 1 (by simp [output_oneExp_eq])⟩

/-- Claim C4: checkpoint round-trip.  `save_variables` followed by
`initialize_variables` from that file on a freshly constructed instance of
the same configuration restores every parameter tensor exactly, hence the
network produces identical output probabilities for every input and every
exponential, and carries an identical `global_step` — whatever the fresh
instance's own random draw was. -/
theorem checkpoint_roundtrip {N planes k layers : ℕ}
    (st : NetState (Params N planes k layers))
    (freshDraw : Params N planes k layers) (e : ℚ → ℚ) (x : Image N planes) :
    (init_variables freshDraw (some (save_variables st))).params = st.params ∧
    (init_variables freshDraw (some (save_variables st))).global_step
      = st.global_step ∧
    output e (init_variables freshDraw (some (save_variables st))).params x
      = output e st.params x := by
  have hp : (init_variables freshDraw (some (save_variables st))).params = st.params := by
    obtain ⟨⟨Wi, Wm, Wf, b⟩, gs⟩ := st
    simp only [init_variables, save_variables]
    rw [listToTensor4_tensor4ToList, listToTensor5_tensor5ToList,
      listToTensor4_tensor4ToList, getD_ofFn_fun]
  exact ⟨hp, rfl, by rw [hp]⟩

/-- Claim C5: `run(position)` returns a list of exactly `board_size²`
(probability, move) pairs, sorted by probability in descending order,
whose probabilities sum to exactly 1 in exact arithmetic — the forward
graph's output is a softmax over the `board_size²` slots, so this
normalisation holds for any input. -/
theorem run_sorted_probability_distribution {N planes k layers : ℕ} {μ : Type}
    (e : ℚ → ℚ) (he : ∀ q, 0 < e q) (hN : 0 < N) (unflatten_coords : ℕ → μ)
    (p : Params N planes k layers) (x : Image N planes) :
    (run e unflatten_coords p x).length = N ^ 2 ∧
    ((run e unflatten_coords p x).map Prod.fst).sum = 1 ∧
    (run e unflatten_coords p x).Pairwise (fun a b => b.1 ≤ a.1) := by
  have hrun : run e unflatten_coords p x
      = List.mergeSort
          ((output e p x).enum.map (fun ip => (ip.2, unflatten_coords ip.1)))
          (fun a b => decide (b.1 ≤ a.1)) := rfl
  have hperm := List.mergeSort_perm
    ((output e p x).enum.map (fun ip => (ip.2, unflatten_coords ip.1)))
    (fun a b => decide (b.1 ≤ a.1))
  have hlen_out : (output e p x).length = N ^ 2 := by
    rw [output, softmax, List.length_map, List.length_ofFn]
  have hmap : ((output e p x).enum.map
      (fun ip => (ip.2, unflatten_coords ip.1))).map Prod.fst = output e p x := by
    rw [List.map_map]
    have hcomp : (Prod.fst ∘ fun ip : ℕ × ℚ => (ip.2, unflatten_coords ip.1))
        = Prod.snd := by
      funext ip; rfl
    rw [hcomp, List.enum_map_snd]
  refine ⟨?_, ?_, ?_⟩
  · rw [hrun, hperm.length_eq, List.length_map, List.enum_length, hlen_out]
  · rw [hrun, (hperm.map Prod.fst).sum_eq, hmap, output]
    exact softmax_sum e he _ (ofFn_logits_ne_nil hN p x)
  · have htrans : ∀ a b c : ℚ × μ, decide (b.1 ≤ a.1) → decide (c.1 ≤ b.1) →
        decide (c.1 ≤ a.1) := by
      intro a b c h1 h2
      exact decide_eq_true (le_trans (of_decide_eq_true h2) (of_decide_eq_true h1))
    have htotal : ∀ a b : ℚ × μ,
        (decide (b.1 ≤ a.1) || decide (a.1 ≤ b.1)) = true := by
      intro a b
      rcases le_total b.1 a.1 with h | h <;> simp [h]
    have hs := List.sorted_mergeSort htrans htotal
      ((output e p x).enum.map (fun ip => (ip.2, unflatten_coords ip.1)))
    rw [hrun]
    refine hs.imp ?_
    intro a b hab
    exact of_decide_eq_true hab

/-- Witness for C5 on the smallest configuration: the single returned
pair carries probability 1, the list has length `1² = 1`, sums to 1 and is
trivially sorted. -/
theorem run_sorted_probability_distribution_witness :
    (run oneExp (fun i => i) zeroParams zeroImage).length = 1 ^ 2 ∧
    ((run oneExp (fun i => i) zeroParams zeroImage).map Prod.fst).sum = 1 ∧
    (run oneExp (fun i => i) zeroParams zeroImage).Pairwise
      (fun a b => b.1 ≤ a.1) :=
  run_sorted_probability_distribution oneExp (fun _ => one_pos) Nat.one_pos
    (fun i => i) zeroParams zeroImage

end MuGo
